import Mathlib

/-!
Shallow embedding of the face-attribution engine of `src/text_mode.rs`:
the face registry (`Faces` with `put_face`, `get_face_*`, theme loading),
the grid model (`init_grid`, capture application from `RustMode::modify`),
and the segment emission loop of `draw_line`.

Rust `HashMap<String, usize>` is modelled as an association list with
map semantics: `lookupA` is lookup, `insertA` replaces any existing
binding, and `retain` is `List.filter`.  Rust `Vec` indexing writes
(`v[i] = x`) are modelled with `List.set` (total; under the reachable
states considered the index is always in bounds) except where a claim
is about the panic itself, in which case an `Option` result models it.
-/

inductive FaceColor where
  | Rgb : Nat → Nat → Nat → FaceColor
deriving DecidableEq

structure Face where
  bg : FaceColor
  fg : FaceColor
deriving DecidableEq

/-- `impl Default for Face` in the source: black background, white foreground. -/
def default_face : Face :=
  { bg := FaceColor.Rgb 0 0 0, fg := FaceColor.Rgb 255 255 255 }

/-- The sentinel face built at the top of `draw_line`: red background, white foreground. -/
def invalid_face : Face :=
  { bg := FaceColor.Rgb 255 0 0, fg := FaceColor.Rgb 255 255 255 }

/-- Association-list lookup, modelling `HashMap::get`. -/
def lookupA : List (String × Nat) → String → Option Nat
  | [], _ => none
  | (k, v) :: rest, n => if k = n then some v else lookupA rest n

/-- Remove every binding for key `k` (helper for the map-semantics insert). -/
def removeA : List (String × Nat) → String → List (String × Nat)
  | [], _ => []
  | p :: rest, k => if p.1 = k then removeA rest k else p :: removeA rest k

/-- Map insert, modelling `HashMap::insert`: the new binding replaces any old one. -/
def insertA (l : List (String × Nat)) (k : String) (v : Nat) : List (String × Nat) :=
  (k, v) :: removeA l k

/-- The `Faces` struct: theme-managed ids, the face store, and the name → id map. -/
structure Faces where
  theme_face_ids : List Nat
  faces : List Face
  face_ids : List (String × Nat)
deriving DecidableEq

/-- The state `run` starts from: all three fields empty. -/
def Faces.empty : Faces := ⟨[], [], []⟩

/-- `Faces::put_face`: upsert by name, returning the new state and the face id. -/
def put_face (s : Faces) (name : String) (face : Face) : Faces × Nat :=
  match lookupA s.face_ids name with
  | some id => ({ s with faces := s.faces.set id face }, id)
  | none =>
    let id := s.faces.length
    ({ s with faces := s.faces ++ [face], face_ids := insertA s.face_ids name id }, id)

/-- `Faces::get_face_by_id`: checked lookup into the face store. -/
def get_face_by_id (s : Faces) (id : Nat) : Option Face :=
  s.faces.get? id

/-- `Faces::get_face_id`: name → id lookup. -/
def get_face_id (s : Faces) (name : String) : Option Nat :=
  lookupA s.face_ids name

/-- `Faces::get_face_by_name`: name lookup followed by a direct index into
`faces`; the inner `Option` being `none` models the Rust index panic. -/
def get_face_by_name (s : Faces) (name : String) : Option Face :=
  (lookupA s.face_ids name).bind (fun id => s.faces.get? id)

/-- `Faces::unload_theme_faces`: drop every name binding whose id is theme-managed. -/
def unload_theme_faces (s : Faces) : Faces :=
  { s with face_ids := s.face_ids.filter (fun p => !s.theme_face_ids.contains p.2) }

/-- One iteration of the `Faces::load_theme_faces` loop at index `i`: reuse
the theme-managed slot at position `i` when one exists, otherwise upsert by
name and mark the resulting id theme-managed. -/
def load_step (s : Faces) (name : String) (face : Face) (i : Nat) : Faces :=
  if i < s.theme_face_ids.length then
    { s with
      face_ids := insertA s.face_ids name (s.theme_face_ids.getD i 0),
      faces := s.faces.set (s.theme_face_ids.getD i 0) face }
  else
    let p := put_face s name face
    { p.1 with theme_face_ids := p.1.theme_face_ids ++ [p.2] }

/-- The loop of `Faces::load_theme_faces`, with the running index `i`. -/
def load_theme_loop : Faces → List (String × Face) → Nat → Faces
  | s, [], _ => s
  | s, (name, face) :: rest, i => load_theme_loop (load_step s name face i) rest (i + 1)

/-- `Faces::load_theme_faces`: unload the previous theme, then walk the entries. -/
def load_theme_faces (s : Faces) (theme : List (String × Face)) : Faces :=
  load_theme_loop (unload_theme_faces s) theme 0

/-- The names bound by a theme. -/
def namesOf (t : List (String × Face)) : List String := t.map (fun p => p.1)

/-- Index of the last entry of `t` carrying name `n` (0 when `n` is absent). -/
def lastIdx : List (String × Face) → String → Nat
  | [], _ => 0
  | _ :: rest, n => if n ∈ namesOf rest then lastIdx rest n + 1 else 0

-- Basic lemmas about the association-list model.

theorem lookupA_insertA_self (l : List (String × Nat)) (k : String) (v : Nat) :
    lookupA (insertA l k v) k = some v := by
  simp [insertA, lookupA]

theorem lookupA_removeA_ne (l : List (String × Nat)) (k m : String) (hkm : m ≠ k) :
    lookupA (removeA l k) m = lookupA l m := by
  have hk : ¬ k = m := fun h => hkm h.symm
  induction l with
  | nil => rfl
  | cons p rest ih =>
    by_cases hp : p.1 = k
    · have hpm : ¬ p.1 = m := fun h => hkm (h.symm.trans hp)
      simp [removeA, hp, lookupA, hpm, ih, hk]
    · by_cases hpm : p.1 = m
      · simp [removeA, hp, lookupA, hpm, hkm]
      · simp [removeA, hp, lookupA, hpm, ih]

theorem lookupA_insertA_ne (l : List (String × Nat)) (k m : String) (v : Nat)
    (hkm : m ≠ k) : lookupA (insertA l k v) m = lookupA l m := by
  have hk : ¬ k = m := fun h => hkm h.symm
  simp [insertA, lookupA, hk, lookupA_removeA_ne l k m hkm]

theorem mem_removeA {p : String × Nat} {l : List (String × Nat)} {k : String}
    (h : p ∈ removeA l k) : p ∈ l := by
  induction l with
  | nil => simp [removeA] at h
  | cons q rest ih =>
    by_cases hq : q.1 = k
    · rw [removeA, if_pos hq] at h
      exact List.mem_cons_of_mem _ (ih h)
    · rw [removeA, if_neg hq] at h
      rcases List.mem_cons.mp h with h1 | h2
      · exact h1 ▸ List.mem_cons_self _ _
      · exact List.mem_cons_of_mem _ (ih h2)

theorem lookupA_mem {l : List (String × Nat)} {n : String} {v : Nat}
    (h : lookupA l n = some v) : (n, v) ∈ l := by
  induction l with
  | nil => simp [lookupA] at h
  | cons p rest ih =>
    simp only [lookupA] at h
    by_cases hp : p.1 = n
    · rw [if_pos hp] at h
      have hpv : p = (n, v) := by
        cases p with
        | mk a b => simp only [Option.some.injEq] at h; simp_all
      rw [← hpv]
      exact List.mem_cons_self _ _
    · rw [if_neg hp] at h
      exact List.mem_cons_of_mem _ (ih h)

theorem lastIdx_lt {t : List (String × Face)} {n : String}
    (h : n ∈ namesOf t) : lastIdx t n < t.length := by
  induction t with
  | nil => simp [namesOf] at h
  | cons p rest ih =>
    by_cases hr : n ∈ namesOf rest
    · simp only [lastIdx, if_pos hr, List.length_cons]
      exact Nat.succ_lt_succ (ih hr)
    · simp [lastIdx, hr]

-- Grid model: `run` initializes one FaceId-0 entry per character of every
-- line; `RustMode::modify` writes capture spans cell by cell.

/-- The per-line face-id rows (`content.faces` in the source). -/
abbrev Grid := List (List Nat)

/-- Grid initialization in `run`: `faces.push(vec![0; line.len()])` per line. -/
def init_grid (lines : List (List Char)) : Grid :=
  lines.map (fun l => List.replicate l.length 0)

/-- A capture span as applied in `RustMode::modify`: a half-open column range
on one row, carrying the face id resolved for the capture's role. -/
structure Capture where
  row : Nat
  colStart : Nat
  colEnd : Nat
  faceId : Nat
deriving DecidableEq

/-- One write `content.faces[row][col] = face_id`; `none` models the Rust
index-out-of-bounds panic. -/
def set_cell (g : Grid) (r c id : Nat) : Option Grid :=
  match (g : List (List Nat)).get? r with
  | none => none
  | some rowL =>
    if c < rowL.length then
      some ((g : List (List Nat)).set r (rowL.set c id))
    else none

/-- The inner loop `for col in start_pos.column..end_pos.column`. -/
def apply_cols : Grid → Nat → List Nat → Nat → Option Grid
  | g, _, [], _ => some g
  | g, r, c :: rest, id =>
    match set_cell g r c id with
    | none => none
    | some g2 => apply_cols g2 r rest id

/-- Application of one capture span in `RustMode::modify`. -/
def apply_span (g : Grid) (cap : Capture) : Option Grid :=
  apply_cols g cap.row (List.range' cap.colStart (cap.colEnd - cap.colStart)) cap.faceId

/-- The capture loop of `RustMode::modify`: apply every span in order. -/
def apply_captures : Grid → List Capture → Option Grid
  | g, [] => some g
  | g, cap :: rest =>
    match apply_span g cap with
    | none => none
    | some g2 => apply_captures g2 rest

-- Role-name → face-id resolution in `RustMode::modify` (the match on the
-- capture name, then `unwrap_or(0)`).

/-- The `match name.as_str()` arms of `RustMode::modify`. -/
def role_lookup (s : Faces) (name : String) : Option Nat :=
  if name = "keyword" then get_face_id s "keyword"
  else if name = "function" then get_face_id s "function"
  else if name = "function.method" then get_face_id s "function"
  else if name = "function.macro" then get_face_id s "function"
  else if name = "comment" then get_face_id s "comment"
  else none

/-- `maybe_face_id.unwrap_or(0)`: 0 is the magic number for the default face. -/
def role_to_face_id (s : Faces) (name : String) : Nat :=
  (role_lookup s name).getD 0

-- The segment-emission loop of `draw_line`.

/-- `usize::MAX`, the initial `current_face_id` sentinel in `draw_line`. -/
def USIZE_MAX : Nat := 2 ^ 64 - 1

/-- Face resolution at a face change in `draw_line`: unknown ids fall back to
the sentinel invalid face. -/
def resolve_face (g : Faces) (id : Nat) : Face :=
  (get_face_by_id g id).getD invalid_face

/-- One emitted `draw_segment` call: it paints the text slice
`line[start..stop]` with `face` (`faceId` is the `current_face_id` value the
segment was emitted under; `USIZE_MAX` for the initial sentinel). -/
structure Seg where
  start : Nat
  stop : Nat
  faceId : Nat
  face : Face
deriving DecidableEq

/-- The `for col in 0..line.len()` loop of `draw_line`, plus the trailing
`if segment_len > 0` flush; `n` is the line length. -/
def draw_line_go (g : Faces) :
    List Nat → Nat → Nat → Nat → Nat → Face → Nat → List Seg
  | [], _, segStart, segLen, curId, curFace, n =>
    if segLen > 0 then [⟨segStart, n, curId, curFace⟩] else []
  | f :: rest, col, segStart, segLen, curId, curFace, n =>
    if f ≠ curId then
      ⟨segStart, segStart + (segLen + 1), curId, curFace⟩ ::
        draw_line_go g rest (col + 1) col 0 f (resolve_face g f) n
    else
      draw_line_go g rest (col + 1) segStart (segLen + 1) curId curFace n

/-- The draw calls `draw_line` emits for a face-id row (the row and the line
have equal length, enforced by the panic at the top of `draw_line`). -/
def draw_line_segs (g : Faces) (row : List Nat) : List Seg :=
  draw_line_go g row 0 0 0 USIZE_MAX default_face row.length

-- Generic list helpers.

theorem get?_eq_some_getD {l : List Nat} {i : Nat} (h : i < l.length) :
    l.get? i = some (l.getD i 0) := by
  rw [List.getD_eq_getElem?_getD, List.get?_eq_getElem?]
  cases hx : l[i]? with
  | none => rw [List.getElem?_eq_none_iff] at hx; omega
  | some v => rfl

-- Length preservation of the capture-application writes (claim C3).

theorem set_cell_lengths {g g' : Grid} {r c id : Nat}
    (h : set_cell g r c id = some g') :
    ∀ i, ((g' : List (List Nat)).get? i).map List.length =
      ((g : List (List Nat)).get? i).map List.length := by
  intro i
  unfold set_cell at h
  cases hr : (g : List (List Nat)).get? r with
  | none => rw [hr] at h; exact absurd h (by simp)
  | some rowL =>
    rw [hr] at h
    dsimp only at h
    by_cases hc : c < rowL.length
    · rw [if_pos hc, Option.some.injEq] at h
      subst h
      by_cases hir : i = r
      · subst hir
        have hlt : i < (g : List (List Nat)).length := by
          by_contra hx
          push_neg at hx
          rw [List.get?_eq_none.mpr hx] at hr
          exact absurd hr (by simp)
        rw [List.get?_set_eq_of_lt _ hlt, hr]
        simp
      · rw [List.get?_set_ne _ _ (fun hh => hir hh.symm)]
    · rw [if_neg hc] at h
      exact absurd h (by simp)

theorem apply_cols_lengths {r id : Nat} :
    ∀ (cols : List Nat) (g g' : Grid), apply_cols g r cols id = some g' →
      ∀ i, ((g' : List (List Nat)).get? i).map List.length =
        ((g : List (List Nat)).get? i).map List.length := by
  intro cols
  induction cols with
  | nil =>
    intro g g' h i
    simp only [apply_cols] at h
    cases h
    rfl
  | cons c rest ih =>
    intro g g' h i
    simp only [apply_cols] at h
    cases hsc : set_cell g r c id with
    | none => rw [hsc] at h; exact absurd h (by simp)
    | some g2 =>
      rw [hsc] at h
      exact (ih g2 g' h i).trans (set_cell_lengths hsc i)

theorem apply_span_lengths {g g' : Grid} {cap : Capture}
    (h : apply_span g cap = some g') :
    ∀ i, ((g' : List (List Nat)).get? i).map List.length =
      ((g : List (List Nat)).get? i).map List.length :=
  apply_cols_lengths _ g g' h

theorem apply_captures_lengths :
    ∀ (caps : List Capture) (g g' : Grid), apply_captures g caps = some g' →
      ∀ i, ((g' : List (List Nat)).get? i).map List.length =
        ((g : List (List Nat)).get? i).map List.length := by
  intro caps
  induction caps with
  | nil =>
    intro g g' h i
    simp only [apply_captures] at h
    cases h
    rfl
  | cons cap rest ih =>
    intro g g' h i
    simp only [apply_captures] at h
    cases hsp : apply_span g cap with
    | none => rw [hsp] at h; exact absurd h (by simp)
    | some g2 =>
      rw [hsp] at h
      exact (ih g2 g' h i).trans (apply_span_lengths hsp i)

-- In-bounds capture application never fails (claim C4, amended).

theorem apply_cols_isSome {r id : Nat} :
    ∀ (cols : List Nat) (g : Grid) (rowL : List Nat),
      (g : List (List Nat)).get? r = some rowL →
      (∀ c ∈ cols, c < rowL.length) →
      (apply_cols g r cols id).isSome := by
  intro cols
  induction cols with
  | nil => intro g rowL _ _; simp [apply_cols]
  | cons c rest ih =>
    intro g rowL hr hcs
    have hc : c < rowL.length := hcs c (List.mem_cons_self _ _)
    have hlt : r < (g : List (List Nat)).length := by
      by_contra hx
      push_neg at hx
      rw [List.get?_eq_none.mpr hx] at hr
      exact absurd hr (by simp)
    have hsc : set_cell g r c id =
        some ((g : List (List Nat)).set r (rowL.set c id)) := by
      unfold set_cell
      rw [hr]
      dsimp only
      rw [if_pos hc]
    simp only [apply_cols, hsc]
    refine ih _ (rowL.set c id) ?_ ?_
    · rw [List.get?_set_eq_of_lt _ hlt]
    · intro c' hc'
      rw [List.length_set]
      exact hcs c' (List.mem_cons_of_mem _ hc')

-- Concrete fixtures used by counterexamples and witnesses.

def faceR : Face := ⟨FaceColor.Rgb 9 9 9, FaceColor.Rgb 10 10 10⟩

def faceS : Face := ⟨FaceColor.Rgb 11 11 11, FaceColor.Rgb 12 12 12⟩

def faceT : Face := ⟨FaceColor.Rgb 13 13 13, FaceColor.Rgb 14 14 14⟩

/-- A registry holding two faces, ids 0 and 1. -/
def gTwo : Faces := ⟨[], [faceR, faceS], [("x", 0), ("y", 1)]⟩

/-- Claim C1: for every nonempty line and equally long face-id row, the
segment coalescing in `draw_line` emits runs that exactly partition
`[0, n)` with no gaps, overlaps, or equal adjacent face ids.  The code
violates this: on the row `[0, 1]` (two characters whose faces differ) it
emits the spans `[0, 1)` twice — the first carrying the uninitialized
default face under the `usize::MAX` sentinel — and never draws column 1. -/
theorem c1_coalescer_failing_input :
    draw_line_segs gTwo [0, 1] =
      [⟨0, 1, USIZE_MAX, default_face⟩, ⟨0, 1, 0, faceR⟩] ∧
    (∀ seg ∈ draw_line_segs gTwo [0, 1], ¬ (seg.start ≤ 1 ∧ 1 < seg.stop)) ∧
    (draw_line_segs gTwo [0, 1]).map (fun seg => (seg.start, seg.stop)) =
      [(0, 1), (0, 1)] := by
  refine ⟨by decide, by decide, by decide⟩

/-- Counterexample to claim C2: a zero-length line produces zero draw
calls, not the claimed single synthetic run of length 1. -/
theorem c2_counterexample :
    draw_line_segs Faces.empty [] = [] ∧
    (draw_line_segs Faces.empty []).length ≠ 1 := by
  exact ⟨rfl, by decide⟩

/-- Claim C2 (amended): for every registry state, a zero-length line emits
no runs at all — `draw_line`'s loop body never executes and the trailing
flush is skipped because `segment_len` is 0. -/
theorem c2_empty_line_amended : ∀ g : Faces, draw_line_segs g [] = [] := by
  intro g
  rfl

/-- Claim C3: grid initialization creates one FaceId-0 entry per character
of every line (so row lengths match line lengths), and a completed
highlighter pass (any list of capture spans applied by `RustMode::modify`)
never changes any row's length. -/
theorem c3_grid_invariant :
    (∀ (lines : List (List Char)) (i : Nat),
      ((init_grid lines) : List (List Nat)).get? i =
        (lines.get? i).map (fun l => List.replicate l.length 0)) ∧
    (∀ (g : Grid) (caps : List Capture) (g' : Grid),
      apply_captures g caps = some g' →
      ∀ i, ((g' : List (List Nat)).get? i).map List.length =
        ((g : List (List Nat)).get? i).map List.length) := by
  constructor
  · intro lines i
    unfold init_grid
    rw [List.get?_eq_getElem?, List.get?_eq_getElem?, List.getElem?_map]
  · intro g caps g' h i
    exact apply_captures_lengths caps g g' h i

/-- Witness for C3 at a concrete grid and capture list. -/
theorem c3_grid_invariant_witness :
    apply_captures [[0, 0]] [⟨0, 0, 1, 5⟩] = some [[5, 0]] ∧
    (([[5, 0]] : List (List Nat)).get? 0).map List.length =
      (([[0, 0]] : List (List Nat)).get? 0).map List.length := by
  exact ⟨by decide, c3_grid_invariant.2 [[0, 0]] [⟨0, 0, 1, 5⟩] [[5, 0]] (by decide) 0⟩

/-- Counterexample to claim C4: applying the capture span `[0, 1)` on row 0
of a grid whose single line is empty hits an out-of-bounds write, which in
the source is an index panic (modelled by `none`), not a clamp or no-op. -/
theorem c4_counterexample :
    apply_span [([] : List Nat)] ⟨0, 0, 1, 7⟩ = none := by
  rfl

/-- Claim C4 (amended): a capture span whose row exists and whose column
range lies within the line bounds is applied without error, but an
out-of-range span makes the write panic (abort), as the counterexample
shows — it is not clamped and not a no-op. -/
theorem c4_in_bounds_never_errors (g : Grid) (cap : Capture) (rowL : List Nat)
    (hr : (g : List (List Nat)).get? cap.row = some rowL)
    (he : cap.colEnd ≤ rowL.length) :
    (apply_span g cap).isSome := by
  refine apply_cols_isSome _ g rowL hr ?_
  intro c hc
  have := List.mem_range'_1.mp hc
  omega

/-- Witness for the amended C4 at a concrete in-bounds span. -/
theorem c4_in_bounds_never_errors_witness :
    (([[0, 0]] : List (List Nat)).get? 0 = some [0, 0]) ∧
    (apply_span [[0, 0]] ⟨0, 0, 2, 9⟩).isSome := by
  exact ⟨rfl, c4_in_bounds_never_errors [[0, 0]] ⟨0, 0, 2, 9⟩ [0, 0] rfl (by decide)⟩

/-- Claim C7: `put_face` is an idempotent upsert — an existing name keeps
its id and has its slot overwritten with everything else untouched; a new
name is appended and bound to the previous length of the face list; two
calls with the same name and face return the same id. -/
theorem c7_put_face_spec (s : Faces) (name : String) (face : Face) :
    (∀ id, lookupA s.face_ids name = some id →
      (put_face s name face).2 = id ∧
      (put_face s name face).1.face_ids = s.face_ids ∧
      (put_face s name face).1.theme_face_ids = s.theme_face_ids ∧
      (put_face s name face).1.faces = s.faces.set id face ∧
      (∀ j, j ≠ id → (put_face s name face).1.faces.get? j = s.faces.get? j) ∧
      (id < s.faces.length → (put_face s name face).1.faces.get? id = some face)) ∧
    (lookupA s.face_ids name = none →
      (put_face s name face).2 = s.faces.length ∧
      (put_face s name face).1.faces = s.faces ++ [face] ∧
      (∀ j, j < s.faces.length →
        (put_face s name face).1.faces.get? j = s.faces.get? j) ∧
      lookupA (put_face s name face).1.face_ids name = some s.faces.length ∧
      (∀ m, m ≠ name →
        lookupA (put_face s name face).1.face_ids m = lookupA s.face_ids m)) ∧
    (put_face (put_face s name face).1 name face).2 = (put_face s name face).2 := by
  refine ⟨?_, ?_, ?_⟩
  · intro id h
    simp only [put_face, h]
    refine ⟨trivial, trivial, trivial, trivial, ?_, ?_⟩
    · intro j hj
      exact List.get?_set_ne _ _ (fun hh => hj hh.symm)
    · intro hid
      exact List.get?_set_eq_of_lt _ hid
  · intro h
    simp only [put_face, h]
    refine ⟨trivial, trivial, ?_, ?_, ?_⟩
    · intro j hj
      exact List.get?_append hj
    · exact lookupA_insertA_self _ _ _
    · intro m hm
      exact lookupA_insertA_ne _ _ _ _ hm
  · cases h : lookupA s.face_ids name with
    | some id =>
      simp only [put_face, h]
    | none =>
      simp only [put_face, h, lookupA_insertA_self]

/-- Witness for C7: at a concrete state where the name is fresh, the new id
is the old length and the second call returns it again. -/
theorem c7_put_face_spec_witness :
    lookupA gTwo.face_ids "z" = none ∧
    (put_face gTwo "z" faceT).2 = gTwo.faces.length ∧
    (put_face (put_face gTwo "z" faceT).1 "z" faceT).2 = (put_face gTwo "z" faceT).2 := by
  refine ⟨by decide, ((c7_put_face_spec gTwo "z" faceT).2.1 (by decide)).1,
    (c7_put_face_spec gTwo "z" faceT).2.2⟩

/-- Claim C8: the capture-role table sends "function.method" and
"function.macro" to the same face id as "function", and any role outside
the five mapped names — as well as a mapped name whose base face is absent
from the registry — resolves to FaceId 0, never an error. -/
theorem c8_role_mapping (s : Faces) (role : String)
    (h : role ∉ ["keyword", "function", "function.method", "function.macro", "comment"]) :
    role_to_face_id s "function.method" = role_to_face_id s "function" ∧
    role_to_face_id s "function.macro" = role_to_face_id s "function" ∧
    role_lookup s role = none ∧
    role_to_face_id s role = 0 ∧
    (get_face_id s "function" = none →
      role_to_face_id s "function" = 0 ∧
      role_to_face_id s "function.method" = 0 ∧
      role_to_face_id s "function.macro" = 0) := by
  simp only [List.mem_cons, List.mem_singleton, not_or] at h
  obtain ⟨h1, h2, h3, h4, h5⟩ := h
  have hlk : role_lookup s role = none := by
    simp [role_lookup, h1, h2, h3, h4, h5]
  have hm : role_lookup s "function.method" = get_face_id s "function" := by rfl
  have hmac : role_lookup s "function.macro" = get_face_id s "function" := by rfl
  have hf : role_lookup s "function" = get_face_id s "function" := by rfl
  refine ⟨?_, ?_, hlk, ?_, ?_⟩
  · simp [role_to_face_id, hm, hf]
  · simp [role_to_face_id, hmac, hf]
  · simp [role_to_face_id, hlk]
  · intro hnone
    simp [role_to_face_id, hm, hmac, hf, hnone]

/-- Witness for C8 at a concrete unmapped role and a registry lacking
"function". -/
theorem c8_role_mapping_witness :
    ("variable" : String) ∉
      ["keyword", "function", "function.method", "function.macro", "comment"] ∧
    role_to_face_id Faces.empty "variable" = 0 ∧
    role_to_face_id Faces.empty "function.method" = 0 := by
  refine ⟨by decide, (c8_role_mapping Faces.empty "variable" (by decide)).2.2.2.1,
    ((c8_role_mapping Faces.empty "variable" (by decide)).2.2.2.2 rfl).2.1⟩

-- Every segment `draw_line` emits under a real face id (not the initial
-- `usize::MAX` sentinel) carries the face the registry resolves for that id.

theorem draw_line_go_face_resolved (g : Faces) :
    ∀ (row : List Nat) (col st len cur : Nat) (curF : Face) (n : Nat),
      (cur ≠ USIZE_MAX → curF = resolve_face g cur) →
      ∀ seg ∈ draw_line_go g row col st len cur curF n,
        seg.faceId ≠ USIZE_MAX → seg.face = resolve_face g seg.faceId := by
  intro row
  induction row with
  | nil =>
    intro col st len cur curF n hcur seg hmem hid
    simp only [draw_line_go] at hmem
    by_cases hlen : len > 0
    · rw [if_pos hlen] at hmem
      rcases List.mem_singleton.mp hmem with h
      subst h
      exact hcur hid
    · rw [if_neg hlen] at hmem
      exact absurd hmem (List.not_mem_nil seg)
  | cons f rest ih =>
    intro col st len cur curF n hcur seg hmem hid
    simp only [draw_line_go] at hmem
    by_cases hf : f ≠ cur
    · rw [if_pos hf] at hmem
      rcases List.mem_cons.mp hmem with h | h
      · subst h
        exact hcur hid
      · exact ih (col + 1) col 0 f (resolve_face g f) n (fun _ => rfl) seg h hid
    · rw [if_neg hf] at hmem
      exact ih (col + 1) st (len + 1) cur curF n hcur seg hmem hid

/-- Claim C9: a failed face lookup never hard-errors — a segment drawn
under a face id that is absent from the registry falls back to the
sentinel invalid face (red background, white foreground) and the rest of
the line is still processed. -/
theorem c9_invalid_fallback (g : Faces) (row : List Nat) (seg : Seg)
    (hmem : seg ∈ draw_line_segs g row) (hid : seg.faceId ≠ USIZE_MAX)
    (hmiss : get_face_by_id g seg.faceId = none) :
    seg.face = invalid_face ∧
    invalid_face.bg = FaceColor.Rgb 255 0 0 ∧
    invalid_face.fg = FaceColor.Rgb 255 255 255 := by
  have h := draw_line_go_face_resolved g row 0 0 0 USIZE_MAX default_face
    row.length (fun hc => absurd rfl hc) seg hmem hid
  rw [resolve_face, hmiss] at h
  exact ⟨h, rfl, rfl⟩

/-- Witness for C9: with an empty registry, the segment for face id 5 is
drawn with the invalid face. -/
theorem c9_invalid_fallback_witness :
    (⟨0, 2, 5, invalid_face⟩ : Seg) ∈ draw_line_segs Faces.empty [5, 5] ∧
    (⟨0, 2, 5, invalid_face⟩ : Seg).face = invalid_face := by
  refine ⟨by decide, (c9_invalid_fallback Faces.empty [5, 5] ⟨0, 2, 5, invalid_face⟩
    (by decide) (by decide) rfl).1⟩


-- Structural facts about `put_face` and the theme-loading loop.

theorem put_face_tfi (s : Faces) (name : String) (face : Face) :
    (put_face s name face).1.theme_face_ids = s.theme_face_ids := by
  unfold put_face
  cases lookupA s.face_ids name <;> rfl

theorem unload_tfi (s : Faces) :
    (unload_theme_faces s).theme_face_ids = s.theme_face_ids := rfl

theorem unload_faces (s : Faces) :
    (unload_theme_faces s).faces = s.faces := rfl

theorem load_step_tfi_lt {s : Faces} {name : String} {face : Face} {i : Nat}
    (hi : i < s.theme_face_ids.length) :
    (load_step s name face i).theme_face_ids = s.theme_face_ids := by
  rw [load_step, if_pos hi]

theorem load_step_tfi_ge {s : Faces} {name : String} {face : Face} {i : Nat}
    (hi : ¬ i < s.theme_face_ids.length) :
    (load_step s name face i).theme_face_ids =
      s.theme_face_ids ++ [(put_face s name face).2] := by
  rw [load_step, if_neg hi]
  simp only
  rw [put_face_tfi]

theorem load_step_faces_lt {s : Faces} {name : String} {face : Face} {i : Nat}
    (hi : i < s.theme_face_ids.length) :
    (load_step s name face i).faces =
      s.faces.set (s.theme_face_ids.getD i 0) face := by
  rw [load_step, if_pos hi]

theorem load_step_faces_ge {s : Faces} {name : String} {face : Face} {i : Nat}
    (hi : ¬ i < s.theme_face_ids.length) :
    (load_step s name face i).faces = (put_face s name face).1.faces := by
  rw [load_step, if_neg hi]

theorem load_step_face_ids_lt {s : Faces} {name : String} {face : Face} {i : Nat}
    (hi : i < s.theme_face_ids.length) :
    (load_step s name face i).face_ids =
      insertA s.face_ids name (s.theme_face_ids.getD i 0) := by
  rw [load_step, if_pos hi]

theorem load_step_face_ids_ge {s : Faces} {name : String} {face : Face} {i : Nat}
    (hi : ¬ i < s.theme_face_ids.length) :
    (load_step s name face i).face_ids = (put_face s name face).1.face_ids := by
  rw [load_step, if_neg hi]

theorem load_step_tfi_le {s : Faces} {name : String} {face : Face} {i : Nat}
    (hle : i ≤ s.theme_face_ids.length) :
    i + 1 ≤ (load_step s name face i).theme_face_ids.length := by
  by_cases hi : i < s.theme_face_ids.length
  · rw [load_step_tfi_lt hi]
    omega
  · rw [load_step_tfi_ge hi, List.length_append]
    simp only [List.length_singleton]
    omega

theorem load_step_tfi_get_lt {s : Faces} {name : String} {face : Face} {i j : Nat}
    (hj : j < s.theme_face_ids.length) :
    (load_step s name face i).theme_face_ids.get? j =
      s.theme_face_ids.get? j := by
  by_cases hi : i < s.theme_face_ids.length
  · rw [load_step_tfi_lt hi]
  · rw [load_step_tfi_ge hi, List.get?_append hj]

theorem load_loop_tfi_length :
    ∀ (theme : List (String × Face)) (s : Faces) (i : Nat),
      i ≤ s.theme_face_ids.length →
      (load_theme_loop s theme i).theme_face_ids.length =
        max s.theme_face_ids.length (i + theme.length) := by
  intro theme
  induction theme with
  | nil =>
    intro s i hle
    simp only [load_theme_loop, List.length_nil]
    omega
  | cons p rest ih =>
    intro s i hle
    obtain ⟨name, face⟩ := p
    simp only [load_theme_loop]
    have h := ih (load_step s name face i) (i + 1) (load_step_tfi_le hle)
    by_cases hi : i < s.theme_face_ids.length
    · rw [h, load_step_tfi_lt hi]
      simp only [List.length_cons]
      omega
    · have hlen : (load_step s name face i).theme_face_ids.length =
          s.theme_face_ids.length + 1 := by
        rw [load_step_tfi_ge hi, List.length_append, List.length_cons, List.length_nil]
      rw [h, hlen]
      simp only [List.length_cons]
      omega

theorem load_loop_tfi_stable :
    ∀ (theme : List (String × Face)) (s : Faces) (i j : Nat),
      j < s.theme_face_ids.length →
      (load_theme_loop s theme i).theme_face_ids.get? j =
        s.theme_face_ids.get? j := by
  intro theme
  induction theme with
  | nil => intro s i j _; rfl
  | cons p rest ih =>
    intro s i j hj
    obtain ⟨name, face⟩ := p
    simp only [load_theme_loop]
    have hj' : j < (load_step s name face i).theme_face_ids.length := by
      by_cases hi : i < s.theme_face_ids.length
      · rw [load_step_tfi_lt hi]; exact hj
      · rw [load_step_tfi_ge hi, List.length_append]; omega
    rw [ih (load_step s name face i) (i + 1) j hj']
    exact load_step_tfi_get_lt hj

theorem load_loop_lookup_not_mem :
    ∀ (theme : List (String × Face)) (s : Faces) (i : Nat) (n : String),
      n ∉ namesOf theme →
      get_face_id (load_theme_loop s theme i) n = get_face_id s n := by
  intro theme
  induction theme with
  | nil => intro s i n _; rfl
  | cons p rest ih =>
    intro s i n hn
    obtain ⟨name, face⟩ := p
    have hn1 : ¬ n = name := by
      intro h; exact hn (by simp [namesOf, h])
    have hn2 : n ∉ namesOf rest := by
      intro h
      refine hn ?_
      simp only [namesOf, List.map_cons, List.mem_cons]
      right
      exact h
    simp only [load_theme_loop]
    rw [ih (load_step s name face i) (i + 1) n hn2]
    by_cases hi : i < s.theme_face_ids.length
    · simp only [get_face_id, load_step_face_ids_lt hi]
      exact lookupA_insertA_ne _ _ _ _ hn1
    · simp only [get_face_id, load_step_face_ids_ge hi, put_face]
      cases hpf : lookupA s.face_ids name with
      | some k => rfl
      | none =>
        simp only
        exact lookupA_insertA_ne _ _ _ _ hn1

/-- After a theme-loop run, a name bound by the theme looks up to exactly the
theme-managed id recorded at the position of the name's last occurrence. -/
theorem load_loop_lookup :
    ∀ (theme : List (String × Face)) (s : Faces) (i : Nat) (n : String),
      i ≤ s.theme_face_ids.length →
      n ∈ namesOf theme →
      get_face_id (load_theme_loop s theme i) n =
        (load_theme_loop s theme i).theme_face_ids.get? (i + lastIdx theme n) := by
  intro theme
  induction theme with
  | nil => intro s i n _ hn; simp [namesOf] at hn
  | cons p rest ih =>
    intro s i n hle hn
    obtain ⟨name, face⟩ := p
    simp only [load_theme_loop]
    by_cases hr : n ∈ namesOf rest
    · have hlast : lastIdx ((name, face) :: rest) n = lastIdx rest n + 1 := by
        simp [lastIdx, hr]
      have harith : i + (lastIdx rest n + 1) = (i + 1) + lastIdx rest n := by omega
      rw [hlast, harith]
      exact ih (load_step s name face i) (i + 1) n (load_step_tfi_le hle) hr
    · have hn_eq : n = name := by
        simp only [namesOf, List.map_cons, List.mem_cons] at hn
        rcases hn with h | h
        · exact h
        · exact absurd h hr
      have hlast : lastIdx ((name, face) :: rest) n = 0 := by
        simp [lastIdx, hr]
      rw [hlast]
      simp only [Nat.add_zero]
      rw [load_loop_lookup_not_mem rest (load_step s name face i) (i + 1) n hr]
      have hi_lt : i < (load_step s name face i).theme_face_ids.length :=
        load_step_tfi_le hle
      rw [load_loop_tfi_stable rest (load_step s name face i) (i + 1) i hi_lt]
      subst hn_eq
      by_cases hi : i < s.theme_face_ids.length
      · rw [load_step_tfi_lt hi]
        simp only [get_face_id, load_step_face_ids_lt hi]
        rw [lookupA_insertA_self, get?_eq_some_getD hi]
      · rw [load_step_tfi_ge hi]
        have hi_eq : i = s.theme_face_ids.length := by omega
        simp only [get_face_id, load_step_face_ids_ge hi]
        rw [hi_eq, List.get?_concat_length]
        cases hpf : lookupA s.face_ids n with
        | some k => simp only [put_face, hpf]
        | none =>
          simp only [put_face, hpf]
          rw [lookupA_insertA_self]

/-- Claim C6: loading a theme `T` twice assigns every name of `T` the same
face id as after the first load — the second pass finds a theme-managed
slot at every position and rebinds each name to the id already stored
there. -/
theorem c6_theme_idempotent (s : Faces) (T : List (String × Face)) (n : String)
    (hn : n ∈ namesOf T) :
    get_face_id (load_theme_faces (load_theme_faces s T) T) n =
      get_face_id (load_theme_faces s T) n := by
  have hj := lastIdx_lt hn
  have h1 : get_face_id (load_theme_faces s T) n =
      (load_theme_faces s T).theme_face_ids.get? (lastIdx T n) := by
    have h := load_loop_lookup T (unload_theme_faces s) 0 n (Nat.zero_le _) hn
    simpa [load_theme_faces] using h
  have hlen1 : T.length ≤ (load_theme_faces s T).theme_face_ids.length := by
    have h := load_loop_tfi_length T (unload_theme_faces s) 0 (Nat.zero_le _)
    simp only [load_theme_faces]
    omega
  have h2 : get_face_id (load_theme_faces (load_theme_faces s T) T) n =
      (load_theme_faces (load_theme_faces s T) T).theme_face_ids.get?
        (lastIdx T n) := by
    have h := load_loop_lookup T (unload_theme_faces (load_theme_faces s T)) 0 n
      (Nat.zero_le _) hn
    simpa [load_theme_faces] using h
  have h3 : (load_theme_faces (load_theme_faces s T) T).theme_face_ids.get?
      (lastIdx T n) = (load_theme_faces s T).theme_face_ids.get? (lastIdx T n) := by
    have h := load_loop_tfi_stable T (unload_theme_faces (load_theme_faces s T)) 0
      (lastIdx T n) (by rw [unload_tfi]; omega)
    simpa [load_theme_faces, unload_tfi] using h
  rw [h2, h3, h1]

/-- Witness for C6 at a concrete state and theme. -/
theorem c6_theme_idempotent_witness :
    ("kw" : String) ∈ namesOf [("kw", faceR), ("fn", faceS)] ∧
    get_face_id (load_theme_faces (load_theme_faces Faces.empty
        [("kw", faceR), ("fn", faceS)]) [("kw", faceR), ("fn", faceS)]) "kw" =
      get_face_id (load_theme_faces Faces.empty [("kw", faceR), ("fn", faceS)]) "kw" :=
  ⟨by decide, c6_theme_idempotent Faces.empty [("kw", faceR), ("fn", faceS)] "kw" (by decide)⟩

/-- Counterexample to claim C5: loading theme `A = [x, y]` and then the
permuted theme `B = [y, x]` moves the name "x" from id 0 to id 1 — slot
reuse in `load_theme_faces` is positional, not name-based, so a name shared
by both themes keeps its id only if it keeps its position. -/
theorem c5_counterexample :
    get_face_id (load_theme_faces Faces.empty [("x", faceR), ("y", faceS)]) "x" =
      some 0 ∧
    get_face_id (load_theme_faces (load_theme_faces Faces.empty
        [("x", faceR), ("y", faceS)]) [("y", faceS), ("x", faceR)]) "x" = some 1 ∧
    (some 1 : Option Nat) ≠ some 0 := by
  refine ⟨by decide, by decide, by decide⟩

-- Which face-store slot each loop step writes, and that later steps leave
-- foreign slots alone.

theorem put_face_faces_len (s : Faces) (name : String) (face : Face) :
    s.faces.length ≤ (put_face s name face).1.faces.length := by
  unfold put_face
  cases lookupA s.face_ids name with
  | some k => simp [List.length_set]
  | none => simp

theorem put_face_faces_get_ne {s : Faces} {name : String} {face : Face} {w : Nat}
    (hw : w < s.faces.length) (hne : (put_face s name face).2 ≠ w) :
    (put_face s name face).1.faces.get? w = s.faces.get? w := by
  revert hne
  unfold put_face
  cases lookupA s.face_ids name with
  | some k =>
    intro hne
    simp only
    exact List.get?_set_ne _ _ (by simpa using hne)
  | none =>
    intro _
    simp only
    exact List.get?_append hw

theorem load_step_faces_len {s : Faces} {name : String} {face : Face} {i : Nat} :
    s.faces.length ≤ (load_step s name face i).faces.length := by
  by_cases hi : i < s.theme_face_ids.length
  · rw [load_step_faces_lt hi, List.length_set]
  · rw [load_step_faces_ge hi]
    exact put_face_faces_len s name face

theorem load_step_slot_lt {s : Faces} {name : String} {face : Face} {i : Nat}
    (hi : i < s.theme_face_ids.length) :
    (load_step s name face i).theme_face_ids.get? i =
      some (s.theme_face_ids.getD i 0) := by
  rw [load_step_tfi_lt hi]
  exact get?_eq_some_getD hi

theorem load_step_slot_ge {s : Faces} {name : String} {face : Face} {i : Nat}
    (hi : ¬ i < s.theme_face_ids.length) (hle : i ≤ s.theme_face_ids.length) :
    (load_step s name face i).theme_face_ids.get? i =
      some ((put_face s name face).2) := by
  have hi_eq : i = s.theme_face_ids.length := by omega
  rw [load_step_tfi_ge hi, hi_eq, List.get?_concat_length]

/-- The slot a loop step writes is exactly the theme-managed id recorded at
its position; a step whose recorded id differs from `w` leaves slot `w` of
the face store unchanged. -/
theorem load_step_faces_get_ne {s : Faces} {name : String} {face : Face}
    {i w : Nat} (hle : i ≤ s.theme_face_ids.length) (hw : w < s.faces.length)
    (hne : (load_step s name face i).theme_face_ids.get? i ≠ some w) :
    (load_step s name face i).faces.get? w = s.faces.get? w := by
  by_cases hi : i < s.theme_face_ids.length
  · rw [load_step_slot_lt hi] at hne
    rw [load_step_faces_lt hi]
    exact List.get?_set_ne _ _ (by simpa using hne)
  · rw [load_step_slot_ge hi hle] at hne
    rw [load_step_faces_ge hi]
    exact put_face_faces_get_ne hw (by simpa using hne)

/-- If no step of the remaining loop records slot `w`, the face stored at
`w` is untouched by the loop. -/
theorem load_loop_faces_untouched :
    ∀ (theme : List (String × Face)) (s : Faces) (i w : Nat),
      i ≤ s.theme_face_ids.length →
      w < s.faces.length →
      (∀ r, r < theme.length →
        (load_theme_loop s theme i).theme_face_ids.get? (i + r) ≠ some w) →
      (load_theme_loop s theme i).faces.get? w = s.faces.get? w := by
  intro theme
  induction theme with
  | nil => intro s i w _ _ _; rfl
  | cons p rest ih =>
    intro s i w hle hw hno
    obtain ⟨name, face⟩ := p
    simp only [load_theme_loop]
    have hstep_le : i + 1 ≤ (load_step s name face i).theme_face_ids.length :=
      load_step_tfi_le hle
    have hslot : (load_theme_loop (load_step s name face i) rest
        (i + 1)).theme_face_ids.get? i = (load_step s name face i).theme_face_ids.get? i :=
      load_loop_tfi_stable rest (load_step s name face i) (i + 1) i hstep_le
    have hv : (load_step s name face i).theme_face_ids.get? i ≠ some w := by
      have h0 := hno 0 (by simp)
      simp only [load_theme_loop, Nat.add_zero] at h0
      rw [← hslot]
      exact h0
    have hstep := load_step_faces_get_ne hle hw hv
    have hrest := ih (load_step s name face i) (i + 1) w hstep_le
      (lt_of_lt_of_le hw load_step_faces_len) ?_
    · rw [hrest, hstep]
    · intro r hr
      have h := hno (r + 1) (by simp only [List.length_cons]; omega)
      simp only [load_theme_loop] at h
      have harith : i + (r + 1) = (i + 1) + r := by omega
      rw [harith] at h
      exact h

/-- The step at position `i` writes its entry's face into the slot recorded
at position `i` (when that slot already existed in the face store). -/
theorem load_step_faces_get_self {s : Faces} {name : String} {face : Face}
    {i w : Nat} (hle : i ≤ s.theme_face_ids.length) (hw : w < s.faces.length)
    (hslot : (load_step s name face i).theme_face_ids.get? i = some w) :
    (load_step s name face i).faces.get? w = some face := by
  by_cases hi : i < s.theme_face_ids.length
  · rw [load_step_slot_lt hi] at hslot
    have hv : s.theme_face_ids.getD i 0 = w := by simpa using hslot
    rw [load_step_faces_lt hi, hv]
    exact List.get?_set_eq_of_lt _ hw
  · rw [load_step_slot_ge hi hle] at hslot
    have hv : (put_face s name face).2 = w := by simpa using hslot
    rw [load_step_faces_ge hi]
    revert hv
    unfold put_face
    cases hpf : lookupA s.face_ids name with
    | some k =>
      intro hv
      simp only at hv ⊢
      subst hv
      exact List.get?_set_eq_of_lt _ hw
    | none =>
      intro hv
      simp only at hv
      omega

/-- After the loop, the face stored in slot `w` is the face of the entry at
position `q` whenever position `q` records slot `w` and no later position
records the same slot. -/
theorem load_loop_faces_at :
    ∀ (theme : List (String × Face)) (s : Faces) (i q : Nat) (nm : String)
      (f : Face) (w : Nat),
      i ≤ s.theme_face_ids.length →
      theme.get? q = some (nm, f) →
      (load_theme_loop s theme i).theme_face_ids.get? (i + q) = some w →
      (∀ r, q < r → r < theme.length →
        (load_theme_loop s theme i).theme_face_ids.get? (i + r) ≠ some w) →
      w < s.faces.length →
      (load_theme_loop s theme i).faces.get? w = some f := by
  intro theme
  induction theme with
  | nil => intro s i q nm f w _ hq; simp [List.get?] at hq
  | cons p rest ih =>
    intro s i q nm f w hle hq hat hno hw
    obtain ⟨name, face⟩ := p
    simp only [load_theme_loop] at hat hno ⊢
    have hstep_le : i + 1 ≤ (load_step s name face i).theme_face_ids.length :=
      load_step_tfi_le hle
    cases q with
    | zero =>
      have hq0 : name = nm ∧ face = f := by
        simp only [List.get?, Option.some.injEq, Prod.mk.injEq] at hq
        exact hq
      have hslot : (load_step s name face i).theme_face_ids.get? i = some w := by
        have h := load_loop_tfi_stable rest (load_step s name face i) (i + 1) i hstep_le
        rw [← h]
        simpa only [Nat.add_zero] using hat
      have hstep := load_step_faces_get_self hle hw hslot
      have hrest := load_loop_faces_untouched rest (load_step s name face i) (i + 1) w
        hstep_le (lt_of_lt_of_le hw load_step_faces_len) ?_
      · rw [hrest, hstep, hq0.2]
      · intro r hr
        have h := hno (r + 1) (by omega) (by simp only [List.length_cons]; omega)
        have harith : i + (r + 1) = (i + 1) + r := by omega
        rw [harith] at h
        exact h
    | succ q' =>
      have hq' : rest.get? q' = some (nm, f) := hq
      have harith : i + (q' + 1) = (i + 1) + q' := by omega
      rw [harith] at hat
      refine ih (load_step s name face i) (i + 1) q' nm f w hstep_le hq' hat ?_
        (lt_of_lt_of_le hw load_step_faces_len)
      intro r hr hrlen
      have h := hno (r + 1) (by omega) (by simp only [List.length_cons]; omega)
      have harith2 : i + (r + 1) = (i + 1) + r := by omega
      rw [harith2] at h
      exact h

/-- Claim C5 (amended): continuity across theme reloads is positional.  If a
name `n` occurs in themes `A` and `B` with the same last-occurrence index,
loading `A` then `B` preserves `get_face_id n`; moreover the face stored at
that id becomes `B`'s definition for `n`, provided no later entry of `B`
reuses the same slot (the registry can alias slots when a theme name
collides with a pre-existing binding).  The counterexample shows the
original name-based statement fails when the shared name changes position. -/
theorem c5_theme_continuity_amended (s : Faces) (A B : List (String × Face))
    (n : String) (hA : n ∈ namesOf A) (hB : n ∈ namesOf B)
    (hidx : lastIdx B n = lastIdx A n) :
    (get_face_id (load_theme_faces (load_theme_faces s A) B) n =
      get_face_id (load_theme_faces s A) n) ∧
    (∀ w f, get_face_id (load_theme_faces s A) n = some w →
      B.get? (lastIdx B n) = some (n, f) →
      w < (load_theme_faces s A).faces.length →
      (∀ r, lastIdx B n < r → r < B.length →
        (load_theme_faces (load_theme_faces s A) B).theme_face_ids.get? r ≠
          some w) →
      get_face_by_id (load_theme_faces (load_theme_faces s A) B) w = some f) := by
  have hjA := lastIdx_lt hA
  have h1 : get_face_id (load_theme_faces s A) n =
      (load_theme_faces s A).theme_face_ids.get? (lastIdx A n) := by
    have h := load_loop_lookup A (unload_theme_faces s) 0 n (Nat.zero_le _) hA
    simpa [load_theme_faces] using h
  have hlenA : A.length ≤ (load_theme_faces s A).theme_face_ids.length := by
    have h := load_loop_tfi_length A (unload_theme_faces s) 0 (Nat.zero_le _)
    simp only [load_theme_faces]
    omega
  have h2 : get_face_id (load_theme_faces (load_theme_faces s A) B) n =
      (load_theme_faces (load_theme_faces s A) B).theme_face_ids.get?
        (lastIdx B n) := by
    have h := load_loop_lookup B (unload_theme_faces (load_theme_faces s A)) 0 n
      (Nat.zero_le _) hB
    simpa [load_theme_faces] using h
  have h3 : (load_theme_faces (load_theme_faces s A) B).theme_face_ids.get?
      (lastIdx B n) =
      (load_theme_faces s A).theme_face_ids.get? (lastIdx B n) := by
    have h := load_loop_tfi_stable B (unload_theme_faces (load_theme_faces s A)) 0
      (lastIdx B n) (by rw [unload_tfi]; omega)
    simpa [load_theme_faces, unload_tfi] using h
  have hcont : get_face_id (load_theme_faces (load_theme_faces s A) B) n =
      get_face_id (load_theme_faces s A) n := by
    rw [h2, h3, hidx, h1]
  refine ⟨hcont, ?_⟩
  intro w f hw hBj hwlen hno
  have hat : (load_theme_faces (load_theme_faces s A) B).theme_face_ids.get?
      (lastIdx B n) = some w := by
    rw [h3, hidx, ← h1]
    exact hw
  have h := load_loop_faces_at B (unload_theme_faces (load_theme_faces s A)) 0
    (lastIdx B n) n f w (Nat.zero_le _) hBj
    (by simpa [load_theme_faces] using hat)
    (by
      intro r hr hrlen
      have := hno r hr hrlen
      simpa [load_theme_faces] using this)
    (by rw [unload_faces]; exact hwlen)
  simpa [load_theme_faces, get_face_by_id] using h

/-- Witness for the amended C5 at concrete themes sharing the name "x" at
position 0. -/
theorem c5_theme_continuity_amended_witness :
    get_face_id (load_theme_faces (load_theme_faces Faces.empty
        [("x", faceR), ("y", faceS)]) [("x", faceT), ("z", faceS)]) "x" =
      get_face_id (load_theme_faces Faces.empty [("x", faceR), ("y", faceS)]) "x" ∧
    get_face_by_id (load_theme_faces (load_theme_faces Faces.empty
        [("x", faceR), ("y", faceS)]) [("x", faceT), ("z", faceS)]) 0 =
      some faceT := by
  refine ⟨(c5_theme_continuity_amended Faces.empty [("x", faceR), ("y", faceS)]
      [("x", faceT), ("z", faceS)] "x" (by decide) (by decide) (by decide)).1,
    (c5_theme_continuity_amended Faces.empty [("x", faceR), ("y", faceS)]
      [("x", faceT), ("z", faceS)] "x" (by decide) (by decide) (by decide)).2
      0 faceT (by decide) (by decide) (by decide) ?_⟩
  intro r h1 h2
  have hb : lastIdx [("x", faceT), ("z", faceS)] "x" = 0 := by decide
  have hc : ([("x", faceT), ("z", faceS)] : List (String × Face)).length = 2 := rfl
  rw [hb] at h1
  rw [hc] at h2
  have hr : r = 1 := by omega
  subst hr
  decide

-- Reachable registry states and the id-bound invariant (claim C10).

/-- States reachable from the empty registry through the two mutating
operations of `Faces`. -/
inductive Reachable : Faces → Prop
  | init : Reachable Faces.empty
  | put (s : Faces) (name : String) (face : Face) :
      Reachable s → Reachable (put_face s name face).1
  | load (s : Faces) (theme : List (String × Face)) :
      Reachable s → Reachable (load_theme_faces s theme)

/-- Every id recorded anywhere in the registry indexes into `faces`. -/
def FacesInv (s : Faces) : Prop :=
  (∀ p ∈ s.face_ids, p.2 < s.faces.length) ∧
  (∀ id ∈ s.theme_face_ids, id < s.faces.length)

theorem put_face_inv {s : Faces} (name : String) (face : Face)
    (h : FacesInv s) :
    FacesInv (put_face s name face).1 ∧
    (put_face s name face).2 < (put_face s name face).1.faces.length := by
  obtain ⟨hmap, htfi⟩ := h
  unfold put_face
  cases hpf : lookupA s.face_ids name with
  | some k =>
    have hk : k < s.faces.length := hmap _ (lookupA_mem hpf)
    refine ⟨⟨?_, ?_⟩, ?_⟩
    · intro p hp
      rw [List.length_set]
      exact hmap p hp
    · intro id hid
      rw [List.length_set]
      exact htfi id hid
    · simp only [List.length_set]
      exact hk
  | none =>
    refine ⟨⟨?_, ?_⟩, ?_⟩
    · intro p hp
      simp only [List.length_append, List.length_cons, List.length_nil]
      rcases List.mem_cons.mp hp with h1 | h2
      · rw [h1]
        omega
      · have := hmap p (mem_removeA h2)
        omega
    · intro id hid
      simp only [List.length_append, List.length_cons, List.length_nil]
      have := htfi id hid
      omega
    · simp only [List.length_append, List.length_cons, List.length_nil]
      omega

theorem unload_inv {s : Faces} (h : FacesInv s) :
    FacesInv (unload_theme_faces s) := by
  obtain ⟨hmap, htfi⟩ := h
  refine ⟨?_, htfi⟩
  intro p hp
  exact hmap p (List.mem_filter.mp hp).1

theorem load_step_inv {s : Faces} {name : String} {face : Face} {i : Nat}
    (h : FacesInv s) : FacesInv (load_step s name face i) := by
  obtain ⟨hmap, htfi⟩ := h
  by_cases hi : i < s.theme_face_ids.length
  · have hv : s.theme_face_ids.getD i 0 < s.faces.length := by
      refine htfi _ ?_
      have := get?_eq_some_getD hi
      exact List.get?_mem this
    constructor
    · intro p hp
      rw [load_step_faces_lt hi, List.length_set]
      rw [load_step_face_ids_lt hi] at hp
      rcases List.mem_cons.mp hp with h1 | h2
      · rw [h1]
        exact hv
      · exact hmap p (mem_removeA h2)
    · intro id hid
      rw [load_step_faces_lt hi, List.length_set]
      rw [load_step_tfi_lt hi] at hid
      exact htfi id hid
  · have hput := put_face_inv name face ⟨hmap, htfi⟩
    constructor
    · intro p hp
      rw [load_step_faces_ge hi]
      rw [load_step_face_ids_ge hi] at hp
      exact hput.1.1 p hp
    · intro id hid
      rw [load_step_faces_ge hi]
      rw [load_step_tfi_ge hi] at hid
      rcases List.mem_append.mp hid with h1 | h2
      · have := hput.1.2 id ?_
        · exact this
        · rw [put_face_tfi]
          exact h1
      · rw [List.mem_singleton.mp h2]
        exact hput.2

theorem load_loop_inv :
    ∀ (theme : List (String × Face)) (s : Faces) (i : Nat),
      FacesInv s → FacesInv (load_theme_loop s theme i) := by
  intro theme
  induction theme with
  | nil => intro s i h; exact h
  | cons p rest ih =>
    intro s i h
    obtain ⟨name, face⟩ := p
    simp only [load_theme_loop]
    exact ih (load_step s name face i) (i + 1) (load_step_inv h)

theorem reachable_inv {s : Faces} (h : Reachable s) : FacesInv s := by
  induction h with
  | init => exact ⟨by simp [Faces.empty], by simp [Faces.empty]⟩
  | put s name face _ ih => exact (put_face_inv name face ih).1
  | load s theme _ ih =>
    exact load_loop_inv theme (unload_theme_faces s) 0 (unload_inv ih)

/-- Claim C10: in every registry state reachable from the empty `Faces` via
`put_face` and `load_theme_faces`, every id in the name map and in
`theme_face_ids` is strictly below `faces.len()`, so the unchecked index in
`get_face_by_name` is always in bounds and never panics. -/
theorem c10_ids_in_bounds (s : Faces) (h : Reachable s) :
    (∀ p ∈ s.face_ids, p.2 < s.faces.length) ∧
    (∀ id ∈ s.theme_face_ids, id < s.faces.length) ∧
    (∀ n id, get_face_id s n = some id →
      ∃ face, get_face_by_name s n = some face) := by
  obtain ⟨hmap, htfi⟩ := reachable_inv h
  refine ⟨hmap, htfi, ?_⟩
  intro n id hid
  have hlt : id < s.faces.length := hmap _ (lookupA_mem hid)
  have hsome : s.faces.get? id = some (s.faces.getD id default_face) := by
    rw [List.getD_eq_getElem?_getD, List.get?_eq_getElem?]
    cases hx : s.faces[id]? with
    | none => rw [List.getElem?_eq_none_iff] at hx; omega
    | some v => rfl
  refine ⟨s.faces.getD id default_face, ?_⟩
  simp only [get_face_by_name, get_face_id] at hid ⊢
  rw [hid]
  simpa using hsome

/-- Witness for C10 at the concrete state `run` builds: empty registry, a
`put_face` of "default", then a theme load. -/
theorem c10_ids_in_bounds_witness :
    get_face_id (load_theme_faces (put_face Faces.empty "default" default_face).1
      [("keyword", faceR)]) "default" = some 0 ∧
    (∃ face, get_face_by_name (load_theme_faces
      (put_face Faces.empty "default" default_face).1 [("keyword", faceR)])
      "default" = some face) := by
  refine ⟨by decide, (c10_ids_in_bounds _
    (Reachable.load _ [("keyword", faceR)]
      (Reachable.put Faces.empty "default" default_face Reachable.init))).2.2
    "default" 0 (by decide)⟩
